import Mathlib

/-!
# Verification of the Tetris game-state engine

Shallow embedding of the game core (`game.js`, `main.js`, `tetromino.js`):
boards are `List (List Int)` (row 0 at the top), coordinates are `Int`
(pieces may straddle the top of the board with negative `y`), and the
stateful `Game` class becomes explicit state passing over a `GameState`
structure.  JavaScript `for` loops with early `return true` become
`List.any` over `List.range`; in-place row mutation becomes `List.set`.
-/

namespace Tetris

/-- `BOARD_WIDTH` from game.js. -/
def BOARD_WIDTH : Nat := 10

/-- `BOARD_HEIGHT` from game.js. -/
def BOARD_HEIGHT : Nat := 20

/-- `createEmptyBoard(width, height)` from game.js: a `height × width` grid
of zeros. -/
def createEmptyBoard (width : Nat := BOARD_WIDTH) (height : Nat := BOARD_HEIGHT) :
    List (List Int) :=
  List.replicate height (List.replicate width 0)

/-- The body of the double loop of `checkCollision`: the test performed for
one shape cell `(row, col)`.  `newX`/`newY` are the absolute board
coordinates of the cell; the boundary check uses `board[0].length` as the
width and `board.length` as the height, and board contents are only
consulted when `newY ≥ 0`. -/
def collidesAt (board : List (List Int)) (shape : List (List Int))
    (x y offsetX offsetY : Int) (row col : Nat) : Bool :=
  if (shape.getD row []).getD col 0 ≠ 0 then
    let newX : Int := x + col + offsetX
    let newY : Int := y + row + offsetY
    if newX < 0 ∨ (board.getD 0 []).length ≤ newX ∨ (board.length : Int) ≤ newY then
      true
    else if 0 ≤ newY ∧ (board.getD newY.toNat []).getD newX.toNat 0 ≠ 0 then
      true
    else
      false
  else
    false

/-- `checkCollision(board, shape, x, y, offsetX, offsetY)` from game.js.
A `null`/non-array shape is modelled by `none`; the explicit guard also
returns `false` for the empty shape.  The two nested `for` loops with an
early `return true` are `List.any` over the row/column index ranges. -/
def checkCollision (board : List (List Int)) (shape : Option (List (List Int)))
    (x y : Int) (offsetX : Int := 0) (offsetY : Int := 0) : Bool :=
  match shape with
  | none => false
  | some s =>
    if s.length = 0 then false
    else
      (List.range s.length).any fun row =>
        (List.range (s.getD row []).length).any fun col =>
          collidesAt board s x y offsetX offsetY row col

/-- `checkFullLines(board)` from game.js: ascending list of indices of rows
whose cells are all non-zero (the inner loop breaks at the first zero cell,
i.e. tests that every cell is non-zero). -/
def checkFullLines (board : List (List Int)) : List Nat :=
  (List.range board.length).filter fun row =>
    (board.getD row []).all fun cell => cell ≠ 0

/-- `clearLines(board, lineIndices)` from game.js: for each listed row, set
every cell of that row to 0 (in place; here a fold replacing the row by a
zero row of the same length). -/
def clearLines (board : List (List Int)) (lineIndices : List Nat) :
    List (List Int) :=
  lineIndices.foldl
    (fun b lineIndex => b.set lineIndex (List.replicate (b.getD lineIndex []).length 0)) board

/-- Effect of the inner column loop of `dropLinesDown`:
`for (col < board[readRow].length) board[writeRow][col] = board[readRow][col]`
overwrites the first `srcRow.length` cells of `dstRow` with `srcRow`. -/
def overwriteRow (dstRow srcRow : List Int) : List Int :=
  srcRow ++ dstRow.drop srcRow.length

/-- The read/write loop of `dropLinesDown`: `readRow` descends from
`board.length - 1` to 0 (the first argument is the number of rows still to
process, so rows `0 .. r-1` remain); non-cleared rows are copied to
`writeRow`, which starts at `board.length - 1` and decreases only on a
copy.  Returns the updated board and the final `writeRow`. -/
def dropLinesDownAux (cleared : List Nat) :
    Nat → Int → List (List Int) → List (List Int) × Int
  | 0, writeRow, b => (b, writeRow)
  | r + 1, writeRow, b =>
    if cleared.contains r then
      dropLinesDownAux cleared r writeRow b
    else
      let b' := if writeRow = (r : Int) then b
        else b.set writeRow.toNat (overwriteRow (b.getD writeRow.toNat []) (b.getD r []))
      dropLinesDownAux cleared r (writeRow - 1) b'

/-- One iteration of the final loop of `dropLinesDown`: zero row `row` when
`row <= writeRow`. -/
def zeroStep (writeRow : Int) (acc : List (List Int)) (row : Nat) : List (List Int) :=
  if (row : Int) ≤ writeRow
  then acc.set row (List.replicate (acc.getD row []).length 0) else acc

/-- The final loop of `dropLinesDown`: zero every row with index
`≤ writeRow` (`for (row = 0; row <= writeRow; row++)`). -/
def zeroTopRows (b : List (List Int)) (writeRow : Int) : List (List Int) :=
  (List.range b.length).foldl (zeroStep writeRow) b

/-- `dropLinesDown(board, clearedLineIndices)` from game.js: early return on
an empty index list, then the compaction loop followed by zero-filling the
vacated top rows. -/
def dropLinesDown (board : List (List Int)) (clearedLineIndices : List Nat) :
    List (List Int) :=
  if clearedLineIndices.length = 0 then board
  else
    let p := dropLinesDownAux clearedLineIndices board.length ((board.length : Int) - 1) board
    zeroTopRows p.1 p.2

/-- `calculateScore(linesCleared, level)` from game.js: the guard rejects
`level ≤ 0`, negative or `> 4` line counts; otherwise the base score table
`{0:0, 1:100, 2:300, 3:500, 4:800}` is multiplied by the level. -/
def calculateScore (linesCleared level : Int) : Int :=
  if level ≤ 0 ∨ linesCleared < 0 ∨ 4 < linesCleared then 0
  else
    (if linesCleared = 0 then 0
     else if linesCleared = 1 then 100
     else if linesCleared = 2 then 300
     else if linesCleared = 3 then 500
     else 800) * level

/-- The 7 tetromino types of tetromino.js. -/
inductive TetroType where
  | I | O | T | S | Z | J | L
deriving DecidableEq

/-- The `TETROMINOS` rotation tables from tetromino.js: for each type, the
4 precomputed rotation-state shape matrices, in order 0°, 90°, 180°, 270°. -/
def TETROMINOS_shapes : TetroType → List (List (List Int))
  | .I => [[[0,0,0,0], [1,1,1,1], [0,0,0,0], [0,0,0,0]],
           [[0,0,1,0], [0,0,1,0], [0,0,1,0], [0,0,1,0]],
           [[0,0,0,0], [0,0,0,0], [1,1,1,1], [0,0,0,0]],
           [[0,1,0,0], [0,1,0,0], [0,1,0,0], [0,1,0,0]]]
  | .O => [[[1,1], [1,1]], [[1,1], [1,1]], [[1,1], [1,1]], [[1,1], [1,1]]]
  | .T => [[[0,1,0], [1,1,1], [0,0,0]],
           [[0,1,0], [0,1,1], [0,1,0]],
           [[0,0,0], [1,1,1], [0,1,0]],
           [[0,1,0], [1,1,0], [0,1,0]]]
  | .S => [[[0,1,1], [1,1,0], [0,0,0]],
           [[0,1,0], [0,1,1], [0,0,1]],
           [[0,0,0], [0,1,1], [1,1,0]],
           [[1,0,0], [1,1,0], [0,1,0]]]
  | .Z => [[[1,1,0], [0,1,1], [0,0,0]],
           [[0,0,1], [0,1,1], [0,1,0]],
           [[0,0,0], [1,1,0], [0,1,1]],
           [[0,1,0], [1,1,0], [1,0,0]]]
  | .J => [[[1,0,0], [1,1,1], [0,0,0]],
           [[0,1,1], [0,1,0], [0,1,0]],
           [[0,0,0], [1,1,1], [0,0,1]],
           [[0,1,0], [0,1,0], [1,1,0]]]
  | .L => [[[0,0,1], [1,1,1], [0,0,0]],
           [[0,1,0], [0,1,0], [0,1,1]],
           [[0,0,0], [1,1,1], [1,0,0]],
           [[1,1,0], [0,1,0], [0,1,0]]]

/-- The `color` field of each `TETROMINOS` entry. -/
def TETROMINOS_color : TetroType → String
  | .I => "cyan"
  | .O => "yellow"
  | .T => "purple"
  | .S => "green"
  | .Z => "red"
  | .J => "blue"
  | .L => "orange"

/-- A tetromino object as built by tetromino.js. -/
structure Tetromino where
  type : TetroType
  shape : List (List Int)
  color : String
  x : Int
  y : Int
  rotation : Nat
deriving DecidableEq

/-- `createTetromino(type)` from tetromino.js: rotation state 0 at the
catalog spawn position `x = 4, y = 0`.  The `TetroType` enumeration makes
the invalid-type fallback to `'I'` unrepresentable. -/
def createTetromino (type : TetroType) : Tetromino :=
  { type := type
    shape := (TETROMINOS_shapes type).getD 0 []
    color := TETROMINOS_color type
    x := 4
    y := 0
    rotation := 0 }

/-- The mutable fields of the `Game` class of main.js (the injected
renderer is stateless from the game's point of view and is omitted; its
calls are modelled by `render` returning the list of draw commands). -/
structure GameState where
  score : Int
  level : Int
  lines : Int
  gameOver : Bool
  paused : Bool
  board : List (List Int)
  currentTetromino : Option Tetromino
  lastDropTime : Int
  dropInterval : Int
deriving DecidableEq

/-- `initializeGameState()` from main.js, also used by `reset()`. -/
def initializeGameState : GameState :=
  { score := 0
    level := 1
    lines := 0
    gameOver := false
    paused := false
    board := createEmptyBoard
    currentTetromino := none
    lastDropTime := 0
    dropInterval := 1000 }

/-- `Game.setGameOver(isGameOver)` from main.js. -/
def setGameOver (s : GameState) (isGameOver : Bool) : GameState :=
  { s with gameOver := isGameOver }

/-- `Game.togglePause()` from main.js: flips `paused` and returns the new
value. -/
def togglePause (s : GameState) : GameState × Bool :=
  ({ s with paused := !s.paused }, !s.paused)

/-- `Game.reset()` from main.js: reinitializes the whole game state. -/
def reset (_s : GameState) : GameState :=
  initializeGameState

/-- `Game.getDropInterval()` from main.js, as a function of the level it
reads; note that the `level <= 5` branch precedes the `level <= 4`
interpolation branch, so the latter is unreachable. -/
def getDropInterval (level : Int) : Int :=
  if level ≤ 1 then 1000
  else if level = 2 then 800
  else if level ≤ 5 then 500
  else if 10 ≤ level then 100
  else if level ≤ 4 then 800 - (level - 2) * 100
  else 500 - (level - 5) * 80

/-- `Game.updateDropInterval()` from main.js. -/
def updateDropInterval (s : GameState) : GameState :=
  { s with dropInterval := getDropInterval s.level }

/-- `Game.addScore(points, linesCleared)` from main.js.  A JavaScript value
failing the `typeof x !== 'number'` test is modelled by `none`; numbers are
`some n`.  A negative or non-numeric argument returns without mutating
anything; otherwise score and lines are incremented, and when the
recomputed level `floor(lines / 10) + 1` exceeds the current one the level
and drop interval are updated. -/
def addScore (s : GameState) (points linesCleared : Option Int) : GameState :=
  match points with
  | none => s
  | some p =>
    if p < 0 then s
    else
      match linesCleared with
      | none => s
      | some n =>
        if n < 0 then s
        else
          let s1 := { s with score := s.score + p, lines := s.lines + n }
          let newLevel := Int.fdiv s1.lines 10 + 1
          if s1.level < newLevel then
            updateDropInterval { s1 with level := newLevel }
          else s1

/-- `Game.shouldDropTetromino(currentTime)` from main.js: `false` while
paused or game over; `false` when not enough time has elapsed; otherwise
advances `lastDropTime` to `currentTime` and returns `true`. -/
def shouldDropTetromino (s : GameState) (currentTime : Int) : GameState × Bool :=
  if s.paused || s.gameOver then (s, false)
  else if currentTime - s.lastDropTime < s.dropInterval then (s, false)
  else ({ s with lastDropTime := currentTime }, true)

/-- `Game.spawnNewTetromino()` from main.js.  The random draw
`types[Math.floor(Math.random() * types.length)]` is abstracted as the
parameter `randomType` (every one of the 7 types may be drawn).  Returns
the new state and the success flag. -/
def spawnNewTetromino (s : GameState) (randomType : TetroType) : GameState × Bool :=
  let newTetromino := createTetromino randomType
  if checkCollision s.board (some newTetromino.shape) newTetromino.x newTetromino.y then
    (setGameOver s true, false)
  else
    ({ s with currentTetromino := some newTetromino }, true)

/-- `Game.getTetrominoColorValue(type)` from main.js (the `|| 1` fallback is
unreachable for the 7 valid types). -/
def getTetrominoColorValue : TetroType → Int
  | .I => 1
  | .O => 2
  | .T => 3
  | .S => 4
  | .Z => 5
  | .J => 6
  | .L => 7

/-- The stamping double loop of `Game.fixTetrominoToBoard()`: each filled
shape cell is written to the board as `colorValue`, guarded by the bounds
check `0 ≤ boardY < board.length ∧ 0 ≤ boardX < board[0].length`. -/
def stampShape (board : List (List Int)) (shape : List (List Int))
    (x y colorValue : Int) : List (List Int) :=
  (List.range shape.length).foldl
    (fun b row =>
      (List.range (shape.getD row []).length).foldl
        (fun b col =>
          if (shape.getD row []).getD col 0 ≠ 0 then
            let boardX : Int := x + col
            let boardY : Int := y + row
            if 0 ≤ boardY ∧ boardY < b.length ∧ 0 ≤ boardX ∧
                boardX < (b.getD 0 []).length then
              b.set boardY.toNat ((b.getD boardY.toNat []).set boardX.toNat colorValue)
            else b
          else b)
        b)
    board

/-- `Game.processLineClearing()` from main.js: detect full lines; when some
exist, clear them, compact, and award `calculateScore` points through
`addScore`. -/
def processLineClearing (s : GameState) : GameState :=
  let fullLines := checkFullLines s.board
  if 0 < fullLines.length then
    let b1 := clearLines s.board fullLines
    let b2 := dropLinesDown b1 fullLines
    let points := calculateScore fullLines.length s.level
    addScore { s with board := b2 } (some points) (some (fullLines.length : Int))
  else s

/-- `Game.fixTetrominoToBoard()` from main.js: stamp the current tetromino
into the board, run line clearing, drop the current piece, and spawn the
next one (whose random draw is the parameter `nextType`). -/
def fixTetrominoToBoard (s : GameState) (nextType : TetroType) : GameState :=
  match s.currentTetromino with
  | none => s
  | some t =>
    let colorValue := getTetrominoColorValue t.type
    let s1 := { s with board := stampShape s.board t.shape t.x t.y colorValue }
    let s2 := processLineClearing s1
    let s3 := { s2 with currentTetromino := none }
    (spawnNewTetromino s3 nextType).1

/-- `Game.dropCurrentTetromino()` from main.js: move the piece down one row
when the collision check at `y + 1` passes, otherwise lock it with
`fixTetrominoToBoard` (which then spawns `nextType`). -/
def dropCurrentTetromino (s : GameState) (nextType : TetroType) : GameState :=
  match s.currentTetromino with
  | none => s
  | some t =>
    if !checkCollision s.board (some t.shape) t.x (t.y + 1) then
      { s with currentTetromino := some { t with y := t.y + 1 } }
    else
      fixTetrominoToBoard s nextType

/-- `Game.validateAndFixGameState()` from main.js: clamp level, score and
lines to their minimum values. -/
def validateAndFixGameState (s : GameState) : GameState :=
  let s1 := if s.level < 1 then { s with level := 1 } else s
  let s2 := if s1.score < 0 then { s1 with score := 0 } else s1
  if s2.lines < 0 then { s2 with lines := 0 } else s2

/-- `Game.update(currentTime)` from main.js: clamp invalid state, no-op
while paused or game over, spawn a piece when none is active, otherwise
drop when `shouldDropTetromino` fires.  `randomType` abstracts the random
draw used by whichever spawn the tick performs.  (The surrounding
`try/catch` never fires in this pure model.) -/
def update (s : GameState) (currentTime : Int) (randomType : TetroType) : GameState :=
  let s0 := validateAndFixGameState s
  if s0.paused || s0.gameOver then s0
  else
    match s0.currentTetromino with
    | none => (spawnNewTetromino s0 randomType).1
    | some _ =>
      let p := shouldDropTetromino s0 currentTime
      if p.2 then dropCurrentTetromino p.1 randomType else p.1

/-- A call the renderer capability receives during `Game.render()`. -/
inductive RenderCall where
  | clear
  | drawBoard (board : List (List Int))
  | drawTetromino (t : Tetromino)
deriving DecidableEq

/-- `Game.render()` from main.js: skipped while paused, otherwise clear,
draw the board, draw the current tetromino if present.  The method writes
no game state; it returns the unchanged state together with the sequence of
renderer calls. -/
def render (s : GameState) : GameState × List RenderCall :=
  if s.paused then (s, [])
  else
    (s, [RenderCall.clear, RenderCall.drawBoard s.board] ++
      (match s.currentTetromino with
       | some t => [RenderCall.drawTetromino t]
       | none => []))

/-- `Game.getGameState()` snapshot fields from main.js. -/
structure GameSnapshot where
  score : Int
  level : Int
  lines : Int
  gameOver : Bool
  paused : Bool
  hasCurrentTetromino : Bool
  dropInterval : Int
  lastDropTime : Int
deriving DecidableEq

/-- `Game.getGameState()` from main.js. -/
def getGameState (s : GameState) : GameSnapshot :=
  { score := s.score
    level := s.level
    lines := s.lines
    gameOver := s.gameOver
    paused := s.paused
    hasCurrentTetromino := s.currentTetromino.isSome
    dropInterval := s.dropInterval
    lastDropTime := s.lastDropTime }

/-! ## Collision predicate -/

/-- The per-cell test of `checkCollision`, as a proposition. -/
lemma collidesAt_eq_true_iff (board s : List (List Int)) (x y ox oy : Int)
    (row col : Nat) :
    collidesAt board s x y ox oy row col = true ↔
      (s.getD row []).getD col 0 ≠ 0 ∧
        (x + col + ox < 0 ∨ ((board.getD 0 []).length : Int) ≤ x + col + ox ∨
          (board.length : Int) ≤ y + row + oy ∨
          (0 ≤ y + row + oy ∧
            (board.getD (y + row + oy).toNat []).getD (x + col + ox).toNat 0 ≠ 0)) := by
  unfold collidesAt
  split_ifs <;> simp_all <;> tauto

/-- `checkCollision board (some s) … = true` iff some filled cell of `s`
lands out of bounds horizontally, or at or below the floor, or (at a
non-negative row) on a non-zero board cell. -/
lemma checkCollision_eq_true_iff (board s : List (List Int)) (x y ox oy : Int) :
    checkCollision board (some s) x y ox oy = true ↔
      ∃ row, row < s.length ∧ ∃ col, col < (s.getD row []).length ∧
        (s.getD row []).getD col 0 ≠ 0 ∧
        (x + col + ox < 0 ∨ ((board.getD 0 []).length : Int) ≤ x + col + ox ∨
          (board.length : Int) ≤ y + row + oy ∨
          (0 ≤ y + row + oy ∧
            (board.getD (y + row + oy).toNat []).getD (x + col + ox).toNat 0 ≠ 0)) := by
  simp only [checkCollision]
  split_ifs with hlen
  · simp only [false_iff]
    rintro ⟨row, hrow, -⟩
    omega
  · simp only [List.any_eq_true, List.mem_range]
    constructor
    · rintro ⟨row, hrow, col, hcol, hc⟩
      exact ⟨row, hrow, col, hcol, (collidesAt_eq_true_iff board s x y ox oy row col).mp hc⟩
    · rintro ⟨row, hrow, col, hcol, hc⟩
      exact ⟨row, hrow, col, hcol, (collidesAt_eq_true_iff board s x y ox oy row col).mpr hc⟩

/-- C1: `checkCollision` is true iff some filled cell of the shape lands at
an absolute column outside `[0, width)`, at an absolute row `≥ height`, or
at an absolute row `≥ 0` over a non-zero board cell; rows at absolute
row `< 0` are never checked against board contents, and a `null` or empty
shape yields `false`. -/
theorem checkCollision_spec (board s : List (List Int)) (x y ox oy : Int) :
    checkCollision board none x y ox oy = false ∧
    checkCollision board (some []) x y ox oy = false ∧
    (checkCollision board (some s) x y ox oy = true ↔
      ∃ row, row < s.length ∧ ∃ col, col < (s.getD row []).length ∧
        (s.getD row []).getD col 0 ≠ 0 ∧
        (x + col + ox < 0 ∨ ((board.getD 0 []).length : Int) ≤ x + col + ox ∨
          (board.length : Int) ≤ y + row + oy ∨
          (0 ≤ y + row + oy ∧
            (board.getD (y + row + oy).toNat []).getD (x + col + ox).toNat 0 ≠ 0))) :=
  ⟨rfl, rfl, checkCollision_eq_true_iff board s x y ox oy⟩

/-! ## Scoring and the drop-interval curve -/

/-- C3: `calculateScore` is the base table `{1 ↦ 100, 2 ↦ 300, 3 ↦ 500,
4 ↦ 800}` times the level for `1 ≤ n ≤ 4` and `l ≥ 1`, and `0` when
`l ≤ 0`, `n < 0`, `n > 4` or `n = 0`; in particular
`calculateScore 4 2 = 1600`, `calculateScore 0 5 = 0` and
`calculateScore 5 1 = 0`. -/
theorem calculateScore_spec (n l : Int) :
    (n = 1 → 1 ≤ l → calculateScore n l = 100 * l) ∧
    (n = 2 → 1 ≤ l → calculateScore n l = 300 * l) ∧
    (n = 3 → 1 ≤ l → calculateScore n l = 500 * l) ∧
    (n = 4 → 1 ≤ l → calculateScore n l = 800 * l) ∧
    (l ≤ 0 ∨ n < 0 ∨ 4 < n ∨ n = 0 → calculateScore n l = 0) ∧
    calculateScore 4 2 = 1600 ∧ calculateScore 0 5 = 0 ∧ calculateScore 5 1 = 0 := by
  refine ⟨?_, ?_, ?_, ?_, ?_, by decide, by decide, by decide⟩ <;>
    · intro h
      first
        | (intro hl; subst h; unfold calculateScore; split_ifs <;> omega)
        | (unfold calculateScore; split_ifs <;> omega)

/-- Witness for C3 at concrete inputs: a single line at level 2 scores
`100 * 2`. -/
theorem calculateScore_spec_witness : calculateScore 1 2 = 100 * 2 :=
  (calculateScore_spec 1 2).1 rfl (by decide)

/-- C4 (code evaluation): the `level <= 5` branch of `getDropInterval`
precedes the written 800→500 interpolation branch, so levels 3 and 4
return 500 ms, not the interpolated 700 ms and 600 ms. -/
theorem getDropInterval_levels_3_4 :
    getDropInterval 3 = 500 ∧ getDropInterval 4 = 500 ∧
    getDropInterval 3 ≠ 700 ∧ getDropInterval 4 ≠ 600 := by
  decide

/-! ## Frame effects of the small state operations -/

/-- C10: `togglePause` flips `paused`, returns the new value, changes no
other field, and is never a no-op (in particular not while game over). -/
theorem togglePause_spec (s : GameState) :
    (togglePause s).1.paused = !s.paused ∧
    (togglePause s).2 = !s.paused ∧
    (togglePause s).1.score = s.score ∧
    (togglePause s).1.level = s.level ∧
    (togglePause s).1.lines = s.lines ∧
    (togglePause s).1.gameOver = s.gameOver ∧
    (togglePause s).1.board = s.board ∧
    (togglePause s).1.currentTetromino = s.currentTetromino ∧
    (togglePause s).1.dropInterval = s.dropInterval ∧
    (togglePause s).1.lastDropTime = s.lastDropTime ∧
    (togglePause s).1 ≠ s := by
  refine ⟨rfl, rfl, rfl, rfl, rfl, rfl, rfl, rfl, rfl, rfl, ?_⟩
  intro h
  have : (togglePause s).1.paused = s.paused := by rw [h]
  simp [togglePause] at this

/-- C9: `shouldDropTetromino` returns `false` with the state unchanged when
paused or game over, or when not enough time has elapsed; otherwise it
returns `true` and changes only `lastDropTime`. -/
theorem shouldDropTetromino_spec (s : GameState) (currentTime : Int) :
    (s.paused = true ∨ s.gameOver = true →
      shouldDropTetromino s currentTime = (s, false)) ∧
    (s.paused = false → s.gameOver = false →
      currentTime - s.lastDropTime < s.dropInterval →
      shouldDropTetromino s currentTime = (s, false)) ∧
    (s.paused = false → s.gameOver = false →
      s.dropInterval ≤ currentTime - s.lastDropTime →
      shouldDropTetromino s currentTime =
        ({ s with lastDropTime := currentTime }, true)) := by
  refine ⟨?_, ?_, ?_⟩
  · intro h
    rcases h with h | h <;> simp [shouldDropTetromino, h]
  · intro hp hg ht
    simp [shouldDropTetromino, hp, hg, ht]
  · intro hp hg ht
    simp [shouldDropTetromino, hp, hg]
    omega

/-- Monotonicity of the floored level computation used by `addScore`. -/
lemma fdiv_ten_mono {a b : Int} (h : 0 ≤ b) :
    Int.fdiv a 10 ≤ Int.fdiv (a + b) 10 := by
  rw [Int.fdiv_eq_ediv _ (by norm_num), Int.fdiv_eq_ediv _ (by norm_num)]
  omega

/-- C7: `addScore` leaves the whole state unchanged on a negative or
non-numeric argument (modelled as `none`); on valid input it adds to score
and lines, recomputes `level = ⌊lines / 10⌋ + 1`, recomputes `dropInterval`
via `getDropInterval` exactly when the recomputed level exceeds the old
one, and touches nothing else.  The hypothesis is the documented state
invariant `level = ⌊lines / 10⌋ + 1`. -/
theorem addScore_spec (s : GameState) (p n : Option Int)
    (hinv : s.level = Int.fdiv s.lines 10 + 1) :
    (p = none → addScore s p n = s) ∧
    (n = none → addScore s p n = s) ∧
    (∀ pv, p = some pv → pv < 0 → addScore s p n = s) ∧
    (∀ nv, n = some nv → nv < 0 → addScore s p n = s) ∧
    (∀ pv nv, p = some pv → n = some nv → 0 ≤ pv → 0 ≤ nv →
      (addScore s p n).score = s.score + pv ∧
      (addScore s p n).lines = s.lines + nv ∧
      (addScore s p n).level = Int.fdiv (s.lines + nv) 10 + 1 ∧
      (s.level < Int.fdiv (s.lines + nv) 10 + 1 →
        (addScore s p n).dropInterval =
          getDropInterval (Int.fdiv (s.lines + nv) 10 + 1)) ∧
      (Int.fdiv (s.lines + nv) 10 + 1 ≤ s.level →
        (addScore s p n).dropInterval = s.dropInterval) ∧
      (addScore s p n).gameOver = s.gameOver ∧
      (addScore s p n).paused = s.paused ∧
      (addScore s p n).board = s.board ∧
      (addScore s p n).currentTetromino = s.currentTetromino ∧
      (addScore s p n).lastDropTime = s.lastDropTime) := by
  refine ⟨?_, ?_, ?_, ?_, ?_⟩
  · rintro rfl; rfl
  · rintro rfl
    cases p with
    | none => rfl
    | some pv => simp only [addScore]; split_ifs <;> rfl
  · rintro pv rfl hneg
    simp only [addScore]
    rw [if_pos hneg]
  · rintro nv rfl hneg
    cases p with
    | none => rfl
    | some pv =>
      simp only [addScore]
      split_ifs with h1
      · rfl
      · rfl
  · rintro pv nv rfl rfl hp hn
    have hmono := fdiv_ten_mono (a := s.lines) hn
    simp only [addScore, if_neg (not_lt.mpr hp), if_neg (not_lt.mpr hn)]
    by_cases hlt : s.level < Int.fdiv (s.lines + nv) 10 + 1
    · rw [if_pos hlt]
      refine ⟨rfl, rfl, rfl, fun _ => rfl, fun hle => absurd hlt (not_lt.mpr hle),
        rfl, rfl, rfl, rfl, rfl⟩
    · rw [if_neg hlt]
      refine ⟨rfl, rfl, ?_, fun h => absurd h hlt, fun _ => rfl, rfl, rfl, rfl, rfl, rfl⟩
      show s.level = Int.fdiv (s.lines + nv) 10 + 1
      omega

/-- Witness for C7 at a concrete state: adding 100 points and 10 lines to
the fresh game raises the level to 2 and recomputes the drop interval. -/
theorem addScore_spec_witness :
    (addScore initializeGameState (some 100) (some 10)).score = 0 + 100 ∧
    (addScore initializeGameState (some 100) (some 10)).lines = 0 + 10 ∧
    (addScore initializeGameState (some 100) (some 10)).level = Int.fdiv (0 + 10) 10 + 1 ∧
    (addScore initializeGameState (some 100) (some 10)).dropInterval =
      getDropInterval (Int.fdiv (0 + 10) 10 + 1) := by
  have h := (addScore_spec initializeGameState (some 100) (some 10) (by decide)).2.2.2.2
    100 10 rfl rfl (by decide) (by decide)
  exact ⟨h.1, h.2.1, h.2.2.1, h.2.2.2.1 (by decide)⟩

/-- Witness for C9 at a concrete state: the fresh game with
`currentTime = 1000` fires the drop and advances the clock. -/
theorem shouldDropTetromino_spec_witness :
    shouldDropTetromino initializeGameState 1000 =
      ({ initializeGameState with lastDropTime := 1000 }, true) :=
  (shouldDropTetromino_spec initializeGameState 1000).2.2 rfl rfl (by decide)

/-! ## Spawning onto a blocked board -/

/-- C6: on a board whose rows 0 and 1 are entirely non-zero, every one of
the 7 piece types the random source may draw collides at the catalog spawn
position `(x = 4, y = 0)` (rotation 0), so `spawnNewTetromino` sets
`gameOver`, returns failure, and leaves the board and `currentTetromino`
unchanged. -/
theorem spawnNewTetromino_blocked_spec (s : GameState) (t : TetroType)
    (hlen : s.board.length = 20)
    (hrect : ∀ row ∈ s.board, row.length = 10)
    (h0 : ∀ c, c < 10 → (s.board.getD 0 []).getD c 0 ≠ 0)
    (h1 : ∀ c, c < 10 → (s.board.getD 1 []).getD c 0 ≠ 0) :
    checkCollision s.board (some (createTetromino t).shape)
      (createTetromino t).x (createTetromino t).y = true ∧
    spawnNewTetromino s t = (setGameOver s true, false) ∧
    (spawnNewTetromino s t).1.gameOver = true ∧
    (spawnNewTetromino s t).1.board = s.board ∧
    (spawnNewTetromino s t).1.currentTetromino = s.currentTetromino ∧
    (spawnNewTetromino s t).2 = false := by
  have hc : checkCollision s.board (some (createTetromino t).shape)
      (createTetromino t).x (createTetromino t).y = true := by
    rw [checkCollision_eq_true_iff]
    cases t with
    | I =>
      refine ⟨1, by decide, 0, by decide, by decide,
        Or.inr (Or.inr (Or.inr ⟨by norm_num [createTetromino], ?_⟩))⟩
      simpa [createTetromino] using h1 4 (by norm_num)
    | O =>
      refine ⟨0, by decide, 0, by decide, by decide,
        Or.inr (Or.inr (Or.inr ⟨by norm_num [createTetromino], ?_⟩))⟩
      simpa [createTetromino] using h0 4 (by norm_num)
    | T =>
      refine ⟨0, by decide, 1, by decide, by decide,
        Or.inr (Or.inr (Or.inr ⟨by norm_num [createTetromino], ?_⟩))⟩
      simpa [createTetromino] using h0 5 (by norm_num)
    | S =>
      refine ⟨0, by decide, 1, by decide, by decide,
        Or.inr (Or.inr (Or.inr ⟨by norm_num [createTetromino], ?_⟩))⟩
      simpa [createTetromino] using h0 5 (by norm_num)
    | Z =>
      refine ⟨0, by decide, 0, by decide, by decide,
        Or.inr (Or.inr (Or.inr ⟨by norm_num [createTetromino], ?_⟩))⟩
      simpa [createTetromino] using h0 4 (by norm_num)
    | J =>
      refine ⟨0, by decide, 0, by decide, by decide,
        Or.inr (Or.inr (Or.inr ⟨by norm_num [createTetromino], ?_⟩))⟩
      simpa [createTetromino] using h0 4 (by norm_num)
    | L =>
      refine ⟨0, by decide, 2, by decide, by decide,
        Or.inr (Or.inr (Or.inr ⟨by norm_num [createTetromino], ?_⟩))⟩
      simpa [createTetromino] using h0 6 (by norm_num)
  have hspawn : spawnNewTetromino s t = (setGameOver s true, false) := by
    simp only [spawnNewTetromino, hc]
    rfl
  exact ⟨hc, hspawn, by rw [hspawn]; rfl, by rw [hspawn]; rfl,
    by rw [hspawn]; rfl, by rw [hspawn]⟩

/-- A board whose top two rows are fully occupied, used as a concrete
witness. -/
def blockedBoard : List (List Int) :=
  List.replicate 2 (List.replicate 10 1) ++ List.replicate 18 (List.replicate 10 0)

/-- Witness for C6: the fresh game with `blockedBoard` rejects an I-piece
spawn and goes game over. -/
theorem spawnNewTetromino_blocked_spec_witness :
    (spawnNewTetromino { initializeGameState with board := blockedBoard } TetroType.I).1.gameOver
        = true ∧
    (spawnNewTetromino { initializeGameState with board := blockedBoard } TetroType.I).2
        = false := by
  have h := spawnNewTetromino_blocked_spec
    { initializeGameState with board := blockedBoard } TetroType.I
    (by decide) (by decide) (by decide) (by decide)
  exact ⟨h.2.2.1, h.2.2.2.2.2⟩

/-! ## Terminality of the game-over state -/

/-- States reachable through the exposed surface of the game: the freshly
constructed state, closed under `update`, `render`, `togglePause`,
`reset`, `spawnNewTetromino`, `setGameOver` and `addScore`. -/
inductive Reachable : GameState → Prop where
  | init : Reachable initializeGameState
  | update {s} (t : Int) (d : TetroType) : Reachable s → Reachable (update s t d)
  | render {s} : Reachable s → Reachable (render s).1
  | togglePause {s} : Reachable s → Reachable (togglePause s).1
  | reset {s} : Reachable s → Reachable (reset s)
  | spawn {s} (d : TetroType) : Reachable s → Reachable (spawnNewTetromino s d).1
  | setGameOver {s} (b : Bool) : Reachable s → Reachable (setGameOver s b)
  | addScore {s} (p n : Option Int) : Reachable s → Reachable (addScore s p n)

/-- C5 counterexample: `spawnNewTetromino` is not guarded by `gameOver`.
After `setGameOver(true)` on the fresh (empty-board) state — a state
reachable through the exposed surface — a spawn draw of `I` installs a
`currentTetromino` even though the game is over. -/
theorem gameOver_not_terminal_for_spawn :
    Reachable (setGameOver initializeGameState true) ∧
    (setGameOver initializeGameState true).gameOver = true ∧
    (setGameOver initializeGameState true).currentTetromino = none ∧
    (spawnNewTetromino (setGameOver initializeGameState true) TetroType.I).1.currentTetromino
      = some (createTetromino TetroType.I) ∧
    (spawnNewTetromino (setGameOver initializeGameState true) TetroType.I).2 = true := by
  refine ⟨Reachable.setGameOver true Reachable.init, rfl, rfl, ?_, ?_⟩ <;>
    · simp only [spawnNewTetromino]
      norm_num [show checkCollision (setGameOver initializeGameState true).board
        (some (createTetromino TetroType.I).shape) (createTetromino TetroType.I).x
        (createTetromino TetroType.I).y = false from by decide]

/-- C5 amended: while `gameOver` is true, `update`, `render` and
`togglePause` mutate no board cell and do not install or move the current
tetromino; `spawnNewTetromino`, in contrast, is guarded only by the spawn
collision check: when the drawn piece collides at the spawn position the
board and current tetromino stay unchanged (and only then). -/
theorem gameOver_terminal_amended (s : GameState) (t : Int) (d : TetroType)
    (hgo : s.gameOver = true) :
    (update s t d).board = s.board ∧
    (update s t d).currentTetromino = s.currentTetromino ∧
    (render s).1 = s ∧
    (togglePause s).1.board = s.board ∧
    (togglePause s).1.currentTetromino = s.currentTetromino ∧
    (checkCollision s.board (some (createTetromino d).shape)
        (createTetromino d).x (createTetromino d).y = true →
      (spawnNewTetromino s d).1.board = s.board ∧
      (spawnNewTetromino s d).1.currentTetromino = s.currentTetromino) ∧
    (checkCollision s.board (some (createTetromino d).shape)
        (createTetromino d).x (createTetromino d).y = false →
      (spawnNewTetromino s d).1.currentTetromino = some (createTetromino d)) := by
  have hval : (validateAndFixGameState s).gameOver = true := by
    simp only [validateAndFixGameState]
    split_ifs <;> exact hgo
  have hvb : (validateAndFixGameState s).board = s.board := by
    simp only [validateAndFixGameState]
    split_ifs <;> rfl
  have hvc : (validateAndFixGameState s).currentTetromino = s.currentTetromino := by
    simp only [validateAndFixGameState]
    split_ifs <;> rfl
  have hupdate : update s t d = validateAndFixGameState s := by
    simp only [update, hval, Bool.or_true, if_true]
  refine ⟨by rw [hupdate, hvb], by rw [hupdate, hvc], ?_, rfl, rfl, ?_, ?_⟩
  · simp only [render]
    split_ifs <;> rfl
  · intro hc
    simp only [spawnNewTetromino, hc]
    exact ⟨rfl, rfl⟩
  · intro hc
    simp only [spawnNewTetromino, hc]
    rfl

/-- Witness for the amended C5 at a concrete state: the fresh game after
`setGameOver(true)`. -/
theorem gameOver_terminal_amended_witness :
    (update (setGameOver initializeGameState true) 0 TetroType.I).board
        = (setGameOver initializeGameState true).board ∧
    (update (setGameOver initializeGameState true) 0 TetroType.I).currentTetromino
        = (setGameOver initializeGameState true).currentTetromino ∧
    (render (setGameOver initializeGameState true)).1
        = setGameOver initializeGameState true := by
  have h := gameOver_terminal_amended (setGameOver initializeGameState true) 0 TetroType.I rfl
  exact ⟨h.1, h.2.1, h.2.2.1⟩

/-! ## Line clearing and compaction -/

/-- `getD` after an in-range `set` at the same index. -/
lemma getD_set_self {α : Type} {l : List α} {i : Nat} {a d : α} (h : i < l.length) :
    (l.set i a).getD i d = a := by
  rw [List.getD_eq_getElem?_getD, List.getElem?_set_eq h]
  rfl

/-- `getD` after a `set` at a different index. -/
lemma getD_set_ne {α : Type} {l : List α} {i j : Nat} {a d : α} (h : i ≠ j) :
    (l.set i a).getD j d = l.getD j d := by
  rw [List.getD_eq_getElem?_getD, List.getD_eq_getElem?_getD, List.getElem?_set_ne h]

/-- Splitting a list's length by a predicate. -/
lemma length_filter_add_length_filter_not {α : Type} (l : List α) (p : α → Bool) :
    (l.filter p).length + (l.filter fun a => !p a).length = l.length := by
  rw [← List.countP_eq_length_filter, ← List.countP_eq_length_filter]
  induction l with
  | nil => rfl
  | cons a l ih => by_cases h : p a <;> simp [List.countP_cons, h] <;> omega

/-- Number of entries of `L` that are `≥ r`. -/
def countGE (L : List Nat) (r : Nat) : Nat :=
  (L.filter fun i => decide (r ≤ i)).length

lemma countGE_zero (L : List Nat) : countGE L 0 = L.length := by
  unfold countGE
  rw [List.filter_eq_self.mpr]
  intro a _
  simp

lemma countGE_succ (L : List Nat) (hnd : L.Nodup) (r : Nat) :
    countGE L r = countGE L (r + 1) + (if r ∈ L then 1 else 0) := by
  induction L with
  | nil => simp [countGE]
  | cons a L ih =>
    have hnd' : L.Nodup := hnd.of_cons
    have ha : a ∉ L := (List.nodup_cons.mp hnd).1
    by_cases har : a = r
    · subst har
      have h1 : countGE (a :: L) a = 1 + countGE L a := by
        simp [countGE, List.filter_cons]
        omega
      have h2 : countGE (a :: L) (a + 1) = countGE L (a + 1) := by
        simp [countGE, List.filter_cons]
      have h3 : countGE L a = countGE L (a + 1) := by
        rw [ih hnd']
        simp [ha]
      simp [h1, h2, h3]
      omega
    · have h1 : countGE (a :: L) r = (if r ≤ a then 1 else 0) + countGE L r := by
        by_cases h : r ≤ a <;> simp [countGE, List.filter_cons, h] <;> omega
      have h2 : countGE (a :: L) (r + 1) = (if r + 1 ≤ a then 1 else 0) + countGE L (r + 1) := by
        by_cases h : r + 1 ≤ a <;> simp [countGE, List.filter_cons, h] <;> omega
      have h4 : (if r ≤ a then 1 else 0) = (if r + 1 ≤ a then 1 else 0) := by
        split_ifs <;> omega
      have h5 : (r ∈ a :: L) ↔ (r ∈ L) := by
        rw [List.mem_cons]
        exact ⟨fun h => h.resolve_left fun he => har he.symm, Or.inr⟩
      rw [h1, h2, ← h4, ih hnd']
      by_cases hr : r ∈ L <;> simp [hr, h5] <;> try omega

/-- With distinct in-range entries, at most `len - r` entries are `≥ r`. -/
lemma countGE_le (L : List Nat) (len : Nat) (hnd : L.Nodup)
    (hmem : ∀ i ∈ L, i < len) (r : Nat) :
    countGE L r ≤ len - r := by
  unfold countGE
  have hfnd : (L.filter fun i => decide (r ≤ i)).Nodup := hnd.filter _
  rw [← List.toFinset_card_of_nodup hfnd]
  calc (L.filter fun i => decide (r ≤ i)).toFinset.card
      ≤ (Finset.Ico r len).card := by
        apply Finset.card_le_card
        intro x hx
        rw [List.mem_toFinset, List.mem_filter] at hx
        rw [Finset.mem_Ico]
        exact ⟨by simpa using hx.2, hmem x hx.1⟩
    _ = len - r := Nat.card_Ico r len

/-- With distinct entries, at most `r` entries are `< r`. -/
lemma count_lt_le (L : List Nat) (hnd : L.Nodup) (r : Nat) :
    (L.filter fun i => decide (i < r)).length ≤ r := by
  have hfnd : (L.filter fun i => decide (i < r)).Nodup := hnd.filter _
  rw [← List.toFinset_card_of_nodup hfnd]
  calc (L.filter fun i => decide (i < r)).toFinset.card
      ≤ (Finset.range r).card := by
        apply Finset.card_le_card
        intro x hx
        rw [List.mem_toFinset, List.mem_filter] at hx
        rw [Finset.mem_range]
        simpa using hx.2
    _ = r := Finset.card_range r

/-- `clearLines` preserves the number of rows. -/
lemma clearLines_length (L : List Nat) : ∀ b : List (List Int),
    (clearLines b L).length = b.length := by
  induction L with
  | nil => intro b; rfl
  | cons i L ih =>
    intro b
    show (clearLines (b.set i (List.replicate (b.getD i []).length 0)) L).length = b.length
    rw [ih, List.length_set]

/-- Rows of `clearLines b L`: listed rows become zero rows of their own
length; other rows are untouched. -/
lemma clearLines_getD (L : List Nat) : ∀ (b : List (List Int)) (j : Nat),
    j < b.length →
    (clearLines b L).getD j [] =
      if j ∈ L then List.replicate ((b.getD j []).length) 0 else b.getD j [] := by
  induction L with
  | nil => intro b j _; simp [clearLines]
  | cons i L ih =>
    intro b j hj
    show (clearLines (b.set i (List.replicate (b.getD i []).length 0)) L).getD j [] = _
    rw [ih _ j (by rw [List.length_set]; exact hj)]
    by_cases hij : i = j
    · subst hij
      rw [getD_set_self hj]
      by_cases hjL : i ∈ L <;> simp [hjL, List.mem_cons]
    · rw [getD_set_ne hij]
      have : (j ∈ i :: L) ↔ (j ∈ L) := by
        simp [List.mem_cons, Ne.symm hij]
      rw [if_congr this rfl rfl]

/-- `clearLines` keeps every row at its original width. -/
lemma clearLines_rect (L : List Nat) {wd : Nat} : ∀ b : List (List Int),
    (∀ row ∈ b, row.length = wd) → ∀ row ∈ clearLines b L, row.length = wd := by
  induction L with
  | nil => intro b hb; exact hb
  | cons i L ih =>
    intro b hb
    apply ih
    show ∀ row ∈ b.set i (List.replicate (b.getD i []).length 0), row.length = wd
    by_cases hi : i < b.length
    · intro row hrow
      rcases List.mem_or_eq_of_mem_set hrow with h | h
      · exact hb row h
      · subst h
        rw [List.length_replicate, List.getD_eq_getElem _ _ hi]
        exact hb _ (List.getElem_mem hi)
    · rw [List.set_eq_of_length_le (by omega)]
      exact hb

/-- Spec-side description of compaction: the rows of `b` among the first
`r` whose index is not in `L`, in original order. -/
def keptUpTo (b : List (List Int)) (L : List Nat) (r : Nat) : List (List Int) :=
  ((List.range r).filter fun i => !L.contains i).map fun i => b.getD i []

/-- Spec-side description of the rows retained by a clear of rows `L`. -/
def keptRows (b : List (List Int)) (L : List Nat) : List (List Int) :=
  keptUpTo b L b.length

lemma keptUpTo_zero (b : List (List Int)) (L : List Nat) : keptUpTo b L 0 = [] := rfl

lemma keptUpTo_succ_mem (b : List (List Int)) {L : List Nat} {r : Nat} (h : r ∈ L) :
    keptUpTo b L (r + 1) = keptUpTo b L r := by
  unfold keptUpTo
  rw [List.range_succ, List.filter_append]
  simp [h]

lemma keptUpTo_succ_not_mem (b : List (List Int)) {L : List Nat} {r : Nat} (h : r ∉ L) :
    keptUpTo b L (r + 1) = keptUpTo b L r ++ [b.getD r []] := by
  unfold keptUpTo
  rw [List.range_succ, List.filter_append]
  simp [h]

/-- Setting a row at an index `≥ r` does not change `keptUpTo … r`. -/
lemma keptUpTo_set_high (b : List (List Int)) (L : List Nat) (r k : Nat)
    (x : List Int) (h : r ≤ k) :
    keptUpTo (b.set k x) L r = keptUpTo b L r := by
  unfold keptUpTo
  apply List.map_congr_left
  intro i hi
  rw [List.mem_filter, List.mem_range] at hi
  exact getD_set_ne (by omega)

/-- Replacing a row by itself is a no-op. -/
lemma set_getD_self (b : List (List Int)) (k : Nat) (h : k < b.length) :
    b.set k (b.getD k []) = b := by
  apply List.ext_getElem
  · simp
  · intro j h1 h2
    by_cases hkj : k = j
    · subst hkj
      rw [List.getElem_set_self, List.getD_eq_getElem _ _ h]
    · rw [List.getElem_set_ne hkj]

/-- Splitting `L.length` into the entries below `r` and the entries `≥ r`. -/
lemma length_split_at (L : List Nat) (r : Nat) :
    (L.filter fun i => decide (i < r)).length + countGE L r = L.length := by
  unfold countGE
  have hcongr : (L.filter fun a => !decide (a < r)) = L.filter fun i => decide (r ≤ i) := by
    apply List.filter_congr
    intro a _
    simp [← decide_not, Nat.not_lt]
  rw [← length_filter_add_length_filter_not L (fun i => decide (i < r)), hcongr]

/-- Loop invariant of the compaction pass of `dropLinesDown`: with rows
`0 .. r-1` still to process and write position `w` satisfying
`w + 1 = r + |L ∩ [r, ∞)|`, the pass rewrites the row segment ending at `w`
to the kept rows among `0 .. r-1`, leaves rows above `L.length` and below
`w` untouched, and finishes with write position `L.length - 1`. -/
lemma dropLinesDownAux_spec (L : List Nat) (wd : Nat) :
    ∀ (r : Nat) (b : List (List Int)) (w : Int),
      L.Nodup → (∀ i ∈ L, i < b.length) → (∀ row ∈ b, row.length = wd) →
      r ≤ b.length →
      w + 1 = r + (countGE L r : Int) →
      dropLinesDownAux L r w b =
        (b.take L.length ++ keptUpTo b L r ++ b.drop (w + 1).toNat,
          (L.length : Int) - 1) := by
  intro r
  induction r with
  | zero =>
    intro b w hnd hmem hrect hr hw
    rw [countGE_zero] at hw
    have hwn : (w + 1).toNat = L.length := by omega
    have hwv : w = (L.length : Int) - 1 := by omega
    show (b, w) = _
    rw [keptUpTo_zero, hwn, hwv]
    simp
  | succ r ih =>
    intro b w hnd hmem hrect hr hw
    have hcge := countGE_succ L hnd r
    have hstep : dropLinesDownAux L (r + 1) w b =
        (if L.contains r then dropLinesDownAux L r w b
         else dropLinesDownAux L r (w - 1)
           (if w = (r : Int) then b
            else b.set w.toNat (overwriteRow (b.getD w.toNat []) (b.getD r [])))) := rfl
    by_cases hrL : r ∈ L
    · have hcontains : L.contains r = true := by simpa using hrL
      have hw' : w + 1 = r + (countGE L r : Int) := by
        rw [hcge, if_pos hrL]
        push_cast at hw ⊢
        omega
      rw [hstep, if_pos hcontains, ih b w hnd hmem hrect (by omega) hw',
        keptUpTo_succ_mem b hrL]
    · have hcontains : L.contains r = false := by simpa using hrL
      have hcge' : countGE L r = countGE L (r + 1) := by
        rw [hcge, if_neg hrL]
        omega
      have hw0 : w = r + (countGE L r : Int) := by
        rw [hcge']
        push_cast at hw ⊢
        omega
      have hge0 : (0 : Int) ≤ w := by
        rw [hw0]; positivity
      have hwr : (r : Int) ≤ w := by
        rw [hw0]
        push_cast
        omega
      have hbound := countGE_le L b.length hnd hmem (r + 1)
      have hwlt : w < (b.length : Int) := by
        push_cast at hw
        omega
      have hsplit := length_split_at L r
      have hcntlt := count_lt_le L hnd r
      have hTle : (L.length : Int) ≤ w := by
        rw [hw0]
        push_cast
        omega
      have hrlen : r < b.length := by omega
      have hwnat : w.toNat < b.length := by omega
      have hover : overwriteRow (b.getD w.toNat []) (b.getD r []) = b.getD r [] := by
        unfold overwriteRow
        have h1 : (b.getD r []).length = wd := by
          rw [List.getD_eq_getElem _ _ hrlen]
          exact hrect _ (List.getElem_mem hrlen)
        have h2 : (b.getD w.toNat []).length = wd := by
          rw [List.getD_eq_getElem _ _ hwnat]
          exact hrect _ (List.getElem_mem hwnat)
        rw [h1, List.drop_eq_nil_of_le (le_of_eq h2), List.append_nil]
      have hb' : (if w = (r : Int) then b
          else b.set w.toNat (overwriteRow (b.getD w.toNat []) (b.getD r []))) =
          b.set w.toNat (b.getD r []) := by
        rw [hover]
        split_ifs with hwr'
        · rw [hwr', Int.toNat_natCast]
          exact (set_getD_self b r hrlen).symm
        · rfl
      have hlen2 : (b.set w.toNat (b.getD r [])).length = b.length := List.length_set b _ _
      have hmem2 : ∀ i ∈ L, i < (b.set w.toNat (b.getD r [])).length := by
        rw [hlen2]; exact hmem
      have hrect2 : ∀ row ∈ b.set w.toNat (b.getD r []), row.length = wd := by
        intro row hrow
        rcases List.mem_or_eq_of_mem_set hrow with h | h
        · exact hrect row h
        · subst h
          rw [List.getD_eq_getElem _ _ hrlen]
          exact hrect _ (List.getElem_mem hrlen)
      have hr2 : r ≤ (b.set w.toNat (b.getD r [])).length := by rw [hlen2]; omega
      have hw2 : (w - 1) + 1 = r + (countGE L r : Int) := by omega
      rw [hstep, if_neg (by simpa using hrL), hb',
        ih _ (w - 1) hnd hmem2 hrect2 hr2 hw2]
      have e1 : (b.set w.toNat (b.getD r [])).take L.length = b.take L.length := by
        rw [List.set_take]
        apply List.set_eq_of_length_le
        calc (b.take L.length).length ≤ L.length := by
              rw [List.length_take]; exact Nat.min_le_left _ _
          _ ≤ w.toNat := by omega
      have e2 : keptUpTo (b.set w.toNat (b.getD r [])) L r = keptUpTo b L r :=
        keptUpTo_set_high b L r w.toNat _ (by omega)
      have e3 : (b.set w.toNat (b.getD r [])).drop ((w - 1) + 1).toNat =
          b.getD r [] :: b.drop (w + 1).toNat := by
        have ht : ((w - 1) + 1).toNat = w.toNat := by omega
        have ht2 : (w + 1).toNat = w.toNat + 1 := by omega
        rw [ht, List.drop_set, if_neg (lt_irrefl _), Nat.sub_self,
          List.drop_eq_getElem_cons hwnat, List.set_cons_zero, ht2]
      rw [e1, e2, e3, keptUpTo_succ_not_mem b hrL]
      simp

/-- Pointwise description of the zero-fill loop: it zeroes rows `0 .. m-1`
with index `≤ w` (each to a zero row of its own length) and preserves the
row count. -/
lemma zeroTopRows_aux (w : Int) :
    ∀ (m : Nat) (b : List (List Int)),
      ((List.range m).foldl (zeroStep w) b).length = b.length ∧
      ∀ j, j < b.length →
        ((List.range m).foldl (zeroStep w) b).getD j [] =
          if j < m ∧ (j : Int) ≤ w then List.replicate ((b.getD j []).length) 0
          else b.getD j [] := by
  intro m
  induction m with
  | zero =>
    intro b
    refine ⟨rfl, fun j hj => ?_⟩
    simp
  | succ m ih =>
    intro b
    have ihb := ih b
    rw [List.range_succ, List.foldl_append]
    simp only [List.foldl_cons, List.foldl_nil]
    set c := (List.range m).foldl (zeroStep w) b with hc
    constructor
    · unfold zeroStep
      split_ifs
      · rw [List.length_set]; exact ihb.1
      · exact ihb.1
    · intro j hj
      unfold zeroStep
      by_cases hmw : (m : Int) ≤ w
      · rw [if_pos hmw]
        by_cases hmb : m < b.length
        · have hcm : c.getD m [] = b.getD m [] := by
            rw [ihb.2 m hmb]
            simp
          by_cases hjm : j = m
          · subst hjm
            rw [getD_set_self (by rw [ihb.1]; exact hmb), hcm]
            rw [if_pos ⟨Nat.lt_succ_self j, hmw⟩]
          · rw [getD_set_ne (Ne.symm hjm), ihb.2 j hj]
            split_ifs <;> first | rfl | omega
        · have hjm : m ≠ j := by omega
          rw [getD_set_ne hjm, ihb.2 j hj]
          split_ifs <;> first | rfl | omega
      · rw [if_neg hmw, ihb.2 j hj]
        split_ifs <;> first | rfl | omega

lemma zeroTopRows_length (b : List (List Int)) (w : Int) :
    (zeroTopRows b w).length = b.length :=
  (zeroTopRows_aux w b.length b).1

lemma zeroTopRows_getD (b : List (List Int)) (w : Int) (j : Nat) (hj : j < b.length) :
    (zeroTopRows b w).getD j [] =
      if (j : Int) ≤ w then List.replicate ((b.getD j []).length) 0 else b.getD j [] := by
  have h := (zeroTopRows_aux w b.length b).2 j hj
  simpa [hj] using h

/-- Reading every row of a list by index reproduces the list. -/
lemma map_getD_range (b : List (List Int)) :
    (List.range b.length).map (fun i => b.getD i []) = b := by
  apply List.ext_getElem
  · simp
  · intro j h1 h2
    simp only [List.getElem_map, List.getElem_range]
    exact List.getD_eq_getElem _ _ h2

/-- No entry of an in-range index list reaches the board height. -/
lemma countGE_len_zero (L : List Nat) (len : Nat) (hmem : ∀ i ∈ L, i < len) :
    countGE L len = 0 := by
  unfold countGE
  rw [List.length_eq_zero, List.filter_eq_nil_iff]
  intro a ha
  simpa using Nat.lt_of_lt_of_le (hmem a ha) le_rfl

/-- Distinct in-range indices of `range n` and of `L` count the same set. -/
lemma length_filter_range_mem (L : List Nat) (hnd : L.Nodup) (n : Nat) :
    ((List.range n).filter fun i => L.contains i).length =
      (L.filter fun i => decide (i < n)).length := by
  have h1 : ((List.range n).filter fun i => L.contains i).Nodup :=
    (List.nodup_range n).filter _
  have h2 : (L.filter fun i => decide (i < n)).Nodup := hnd.filter _
  rw [← List.toFinset_card_of_nodup h1, ← List.toFinset_card_of_nodup h2]
  congr 1
  ext x
  simp [List.mem_filter, List.mem_range]
  tauto

/-- An in-range distinct index list is no longer than the range. -/
lemma nodup_length_le (L : List Nat) (len : Nat) (hnd : L.Nodup)
    (hmem : ∀ i ∈ L, i < len) : L.length ≤ len := by
  have h := countGE_le L len hnd hmem 0
  rw [countGE_zero] at h
  omega

/-- The rows kept by the compaction, counted against the board height. -/
lemma keptRows_length (b : List (List Int)) (L : List Nat) (hnd : L.Nodup)
    (hmem : ∀ i ∈ L, i < b.length) :
    L.length + (keptRows b L).length = b.length := by
  unfold keptRows keptUpTo
  rw [List.length_map]
  have hpart := length_filter_add_length_filter_not (List.range b.length)
    (fun i => L.contains i)
  have hbridge := length_filter_range_mem L hnd b.length
  have hLfull : (L.filter fun i => decide (i < b.length)) = L :=
    List.filter_eq_self.mpr fun a ha => by simpa using hmem a ha
  rw [hLfull] at hbridge
  rw [List.length_range] at hpart
  omega

/-- Clearing the listed rows does not change the kept rows. -/
lemma keptRows_clearLines (board : List (List Int)) (L : List Nat)
    (hmem : ∀ i ∈ L, i < board.length) :
    keptRows (clearLines board L) L = keptRows board L := by
  unfold keptRows keptUpTo
  rw [clearLines_length]
  apply List.map_congr_left
  intro i hi
  rw [List.mem_filter, List.mem_range] at hi
  have hiL : i ∉ L := by simpa using hi.2
  rw [clearLines_getD L board i hi.1, if_neg hiL]

/-- The composite effect of `clearLines` followed by `dropLinesDown` on a
rectangular board with distinct in-range cleared rows: `|L|` zero rows on
top of the retained rows in their original order. -/
lemma clear_drop_eq (board : List (List Int)) (L : List Nat) (wd : Nat)
    (hrect : ∀ row ∈ board, row.length = wd)
    (hnd : L.Nodup) (hmem : ∀ i ∈ L, i < board.length) :
    dropLinesDown (clearLines board L) L =
      List.replicate L.length (List.replicate wd 0) ++ keptRows board L := by
  by_cases hL : L.length = 0
  · have hLnil : L = [] := List.length_eq_zero.mp hL
    subst hLnil
    show dropLinesDown board [] = _
    unfold dropLinesDown keptRows keptUpTo
    rw [if_pos hL]
    have hfilter : ((List.range board.length).filter fun i => !([] : List Nat).contains i) =
        List.range board.length := List.filter_eq_self.mpr fun a _ => by simp
    rw [hfilter, map_getD_range]
    simp
  · set C := clearLines board L with hC
    have hCL : C.length = board.length := clearLines_length L board
    have hmemC : ∀ i ∈ L, i < C.length := by rw [hCL]; exact hmem
    have hrectC : ∀ row ∈ C, row.length = wd := clearLines_rect L board hrect
    have hT0 : countGE L C.length = 0 := countGE_len_zero L C.length hmemC
    have hTle : L.length ≤ C.length := nodup_length_le L C.length hnd hmemC
    have haux := dropLinesDownAux_spec L wd C.length C ((C.length : Int) - 1)
      hnd hmemC hrectC le_rfl (by rw [hT0]; push_cast; ring)
    have hdef : dropLinesDown C L =
        zeroTopRows (dropLinesDownAux L C.length ((C.length : Int) - 1) C).1
          (dropLinesDownAux L C.length ((C.length : Int) - 1) C).2 := by
      simp only [dropLinesDown, if_neg hL]
    rw [hdef, haux]
    have hdropidx : ((C.length : Int) - 1 + 1).toNat = C.length := by omega
    have hkt : keptUpTo C L C.length = keptRows board L := by
      rw [show keptUpTo C L C.length = keptRows C L from by rw [hC, keptRows, clearLines_length],
        hC, keptRows_clearLines board L hmem]
    rw [hdropidx, List.drop_length, List.append_nil, hkt]
    -- remaining: the zero-fill rewrites the first |L| junk rows
    set K := keptRows board L with hK
    have hKlen : L.length + K.length = board.length := by
      rw [hK]; exact keptRows_length board L hnd hmem
    have htake : (C.take L.length).length = L.length := by
      rw [List.length_take]
      omega
    have hb1len : (C.take L.length ++ K).length = board.length := by
      rw [List.length_append, htake]
      omega
    apply List.ext_getElem
    · rw [zeroTopRows_length, hb1len, List.length_append, List.length_replicate]
      omega
    · intro j h1 h2
      rw [← List.getD_eq_getElem _ [] h1, ← List.getD_eq_getElem _ [] h2]
      have hj : j < (C.take L.length ++ K).length := by
        rw [zeroTopRows_length] at h1
        exact h1
      rw [zeroTopRows_getD _ _ j hj]
      by_cases hjT : j < L.length
      · rw [if_pos (by push_cast; omega)]
        have hgetj : (C.take L.length ++ K).getD j [] = C.getD j [] := by
          rw [List.getD_append _ _ _ _ (by rw [htake]; exact hjT)]
          have hjC : j < C.length := by omega
          rw [List.getD_eq_getElem _ [] (by rw [htake]; exact hjT),
            List.getElem_take, List.getD_eq_getElem _ [] hjC]
        have hwdj : (C.getD j []).length = wd := by
          have hjC : j < C.length := by omega
          rw [List.getD_eq_getElem _ [] hjC]
          exact hrectC _ (List.getElem_mem hjC)
        rw [hgetj, hwdj,
          List.getD_append _ _ _ _ (by rw [List.length_replicate]; exact hjT)]
        rw [List.getD_eq_getElem _ [] (by rw [List.length_replicate]; exact hjT),
          List.getElem_replicate]
      · rw [if_neg (by push_cast; omega)]
        rw [List.getD_append_right _ _ _ _ (by rw [htake]; omega),
          List.getD_append_right _ _ _ _ (by rw [List.length_replicate]; omega),
          htake, List.length_replicate]

/-- Filtering an index range splits around a selected index. -/
lemma filter_range_split (p : Nat → Bool) {n i : Nat} (hi : i < n) (hp : p i = true) :
    ∃ rest, (List.range n).filter p = (List.range i).filter p ++ i :: rest := by
  obtain ⟨m, rfl⟩ : ∃ m, n = i + (m + 1) := ⟨n - i - 1, by omega⟩
  rw [List.range_add, List.filter_append]
  have hmap : (List.range (m + 1)).map (fun k => i + k) =
      i :: (List.range m).map (fun k => i + Nat.succ k) := by
    rw [List.range_succ_eq_map]
    simp [List.map_map, Function.comp]
  rw [hmap, List.filter_cons_of_pos hp]
  exact ⟨(List.range m).map (fun k => i + Nat.succ k) |>.filter p, rfl⟩

/-- A retained row sits in `keptRows` at the position counting the kept
rows above it. -/
lemma keptRows_getD_at (b : List (List Int)) (L : List Nat) (i : Nat)
    (hi : i < b.length) (hiL : i ∉ L) :
    (keptRows b L).getD (((List.range i).filter fun k => !L.contains k).length) []
      = b.getD i [] := by
  have hp : (fun k => !L.contains k) i = true := by simpa using hiL
  obtain ⟨rest, hsplit⟩ := filter_range_split (fun k => !L.contains k) hi hp
  unfold keptRows keptUpTo
  rw [hsplit, List.map_append]
  rw [List.getD_append_right _ _ _ _ (by rw [List.length_map])]
  rw [List.length_map, Nat.sub_self]
  rfl

/-- C2: after `clearLines` then `dropLinesDown` over distinct in-range rows
`L`, the board keeps its dimensions, the `|L|` vacated top rows are zero,
every retained row keeps its exact contents and order — each shifted down
by the number of cleared rows below it — and the whole board equals `|L|`
zero rows on top of the retained rows; with `L` empty `dropLinesDown`
changes nothing. -/
theorem clearLines_dropLinesDown_spec (board : List (List Int)) (L : List Nat) (wd : Nat)
    (hrect : ∀ row ∈ board, row.length = wd)
    (hnd : L.Nodup) (hmem : ∀ i ∈ L, i < board.length) :
    dropLinesDown (clearLines board L) L
      = List.replicate L.length (List.replicate wd 0) ++ keptRows board L ∧
    (dropLinesDown (clearLines board L) L).length = board.length ∧
    (∀ row ∈ dropLinesDown (clearLines board L) L, row.length = wd) ∧
    (∀ j, j < L.length →
      (dropLinesDown (clearLines board L) L).getD j [] = List.replicate wd 0) ∧
    (∀ i, i < board.length → i ∉ L →
      (dropLinesDown (clearLines board L) L).getD
        (i + (L.filter fun j => decide (i < j)).length) [] = board.getD i []) ∧
    dropLinesDown board [] = board := by
  have heq := clear_drop_eq board L wd hrect hnd hmem
  have hklen := keptRows_length board L hnd hmem
  refine ⟨heq, ?_, ?_, ?_, ?_, rfl⟩
  · rw [heq, List.length_append, List.length_replicate]
    omega
  · rw [heq]
    intro row hrow
    rcases List.mem_append.mp hrow with h | h
    · rw [List.eq_of_mem_replicate h, List.length_replicate]
    · unfold keptRows keptUpTo at h
      obtain ⟨a, ha, hfa⟩ := List.mem_map.mp h
      rw [List.mem_filter, List.mem_range] at ha
      rw [← hfa, List.getD_eq_getElem _ [] ha.1]
      exact hrect _ (List.getElem_mem ha.1)
  · intro j hj
    rw [heq, List.getD_append _ _ _ _ (by rw [List.length_replicate]; exact hj),
      List.getD_eq_getElem _ [] (by rw [List.length_replicate]; exact hj),
      List.getElem_replicate]
  · intro i hi hiL
    have hkept := keptRows_getD_at board L i hi hiL
    -- index bookkeeping: |L| + (kept rows above i) = i + (cleared rows below i)
    have hpart := length_filter_add_length_filter_not (List.range i)
      (fun k => L.contains k)
    have hbridge := length_filter_range_mem L hnd i
    have hsplitL := length_split_at L i
    have hcntlt := count_lt_le L hnd i
    have hge_gt : (L.filter fun j => decide (i ≤ j)).length
        = (L.filter fun j => decide (i < j)).length := by
      apply congrArg List.length
      apply List.filter_congr
      intro a ha
      have hne : a ≠ i := fun he => hiL (he ▸ ha)
      simp only [decide_eq_decide]
      omega
    have hidx : i + (L.filter fun j => decide (i < j)).length =
        L.length + ((List.range i).filter fun k => !L.contains k).length := by
      rw [List.length_range] at hpart
      unfold countGE at hsplitL
      omega
    rw [heq, hidx,
      List.getD_append_right _ _ _ _ (by rw [List.length_replicate]; omega),
      List.length_replicate, Nat.add_sub_cancel_left]
    exact hkept

/-- Witness for C2 at a concrete board: clearing row 1 of a 3-row board
drops row 0 into row 1 and zeroes the top. -/
theorem clearLines_dropLinesDown_spec_witness :
    dropLinesDown (clearLines [[1, 1], [2, 2], [3, 3]] [1]) [1]
      = List.replicate 1 (List.replicate 2 0) ++ keptRows [[1, 1], [2, 2], [3, 3]] [1] :=
  (clearLines_dropLinesDown_spec [[1, 1], [2, 2], [3, 3]] [1] 2
    (by decide) (by decide) (by decide)).1

/-! ## Board well-formedness -/

/-- The documented board invariant: 20 rows of 10 columns, every cell value
in `[0, 7]`. -/
def boardWF (b : List (List Int)) : Prop :=
  b.length = BOARD_HEIGHT ∧
    ∀ row ∈ b, row.length = BOARD_WIDTH ∧ ∀ v ∈ row, 0 ≤ v ∧ v ≤ 7

/-- A fold preserves any invariant its step preserves. -/
lemma foldl_preserves {α β : Type} {P : β → Prop} (f : β → α → β) (l : List α)
    (hf : ∀ b a, P b → P (f b a)) : ∀ b, P b → P (l.foldl f b) := by
  induction l with
  | nil => intro b hb; exact hb
  | cons a l ih =>
    intro b hb
    exact ih _ (hf b a hb)

/-- Writing a value in `[0, 7]` into one cell preserves well-formedness. -/
lemma setCell_WF {b : List (List Int)} {i j : Nat} {v : Int}
    (h : boardWF b) (hv : 0 ≤ v ∧ v ≤ 7) :
    boardWF (b.set i ((b.getD i []).set j v)) := by
  by_cases hi : i < b.length
  · constructor
    · rw [List.length_set]; exact h.1
    · intro row hrow
      rcases List.mem_or_eq_of_mem_set hrow with hr | hr
      · exact h.2 row hr
      · subst hr
        have hbm : b.getD i [] ∈ b := by
          rw [List.getD_eq_getElem _ [] hi]; exact List.getElem_mem hi
        have hmem := h.2 _ hbm
        constructor
        · rw [List.length_set]; exact hmem.1
        · intro v' hv'
          rcases List.mem_or_eq_of_mem_set hv' with h2 | h2
          · exact hmem.2 v' h2
          · subst h2; exact hv
  · rw [List.set_eq_of_length_le (by omega)]
    exact h

/-- Stamping a shape with a colour value in `[1, 7]` preserves the board
invariant. -/
lemma stampShape_WF (b shape : List (List Int)) (x y cv : Int)
    (hcv : 1 ≤ cv ∧ cv ≤ 7) (h : boardWF b) :
    boardWF (stampShape b shape x y cv) := by
  unfold stampShape
  apply foldl_preserves _ _ _ _ h
  intro b0 row hb0
  apply foldl_preserves _ _ _ _ hb0
  intro b1 col hb1
  dsimp only
  split_ifs with h1 h2
  · exact setCell_WF hb1 ⟨by omega, by omega⟩
  · exact hb1
  · exact hb1

/-- `clearLines` preserves the board invariant (it only writes zero rows of
the original width). -/
lemma clearLines_WF (L : List Nat) : ∀ b : List (List Int),
    boardWF b → boardWF (clearLines b L) := by
  induction L with
  | nil => intro b h; exact h
  | cons i L ih =>
    intro b h
    apply ih
    show boardWF (b.set i (List.replicate (b.getD i []).length 0))
    by_cases hi : i < b.length
    · constructor
      · rw [List.length_set]; exact h.1
      · intro row hrow
        rcases List.mem_or_eq_of_mem_set hrow with hr | hr
        · exact h.2 row hr
        · subst hr
          have hbm : b.getD i [] ∈ b := by
            rw [List.getD_eq_getElem _ [] hi]; exact List.getElem_mem hi
          have hmem := h.2 _ hbm
          refine ⟨by rw [List.length_replicate]; exact hmem.1, ?_⟩
          intro v hv
          rw [List.eq_of_mem_replicate hv]
          exact ⟨le_refl 0, by norm_num⟩
    · rw [List.set_eq_of_length_le (by omega)]
      exact h

lemma checkFullLines_nodup (b : List (List Int)) : (checkFullLines b).Nodup :=
  (List.nodup_range _).filter _

lemma checkFullLines_mem (b : List (List Int)) :
    ∀ i ∈ checkFullLines b, i < b.length := by
  intro i hi
  unfold checkFullLines at hi
  rw [List.mem_filter, List.mem_range] at hi
  exact hi.1

/-- The full line-clear pass (`clearLines` + `dropLinesDown` over the
detected full lines) preserves the board invariant. -/
lemma clear_drop_WF (b : List (List Int)) (h : boardWF b) :
    boardWF (dropLinesDown (clearLines b (checkFullLines b)) (checkFullLines b)) := by
  have hrect : ∀ row ∈ b, row.length = BOARD_WIDTH := fun row hr => (h.2 row hr).1
  have heq := clear_drop_eq b (checkFullLines b) BOARD_WIDTH hrect
    (checkFullLines_nodup b) (checkFullLines_mem b)
  have hklen := keptRows_length b (checkFullLines b)
    (checkFullLines_nodup b) (checkFullLines_mem b)
  have hbl := h.1
  rw [heq]
  constructor
  · rw [List.length_append, List.length_replicate]
    omega
  · intro row hrow
    rcases List.mem_append.mp hrow with hr | hr
    · rw [List.eq_of_mem_replicate hr]
      refine ⟨List.length_replicate _ _, ?_⟩
      intro v hv
      rw [List.eq_of_mem_replicate hv]
      exact ⟨le_refl 0, by norm_num⟩
    · unfold keptRows keptUpTo at hr
      obtain ⟨a, ha, hfa⟩ := List.mem_map.mp hr
      rw [List.mem_filter, List.mem_range] at ha
      rw [← hfa, List.getD_eq_getElem _ [] ha.1]
      exact h.2 _ (List.getElem_mem ha.1)

/-- The colour identifiers are exactly `1 .. 7`. -/
lemma getTetrominoColorValue_range (ty : TetroType) :
    1 ≤ getTetrominoColorValue ty ∧ getTetrominoColorValue ty ≤ 7 := by
  cases ty <;> exact ⟨by decide, by decide⟩

lemma addScore_board (s : GameState) (p n : Option Int) :
    (addScore s p n).board = s.board := by
  unfold addScore
  cases p with
  | none => rfl
  | some pv =>
    dsimp only
    split_ifs with h1
    · rfl
    · cases n with
      | none => rfl
      | some nv =>
        dsimp only
        split_ifs <;> rfl

lemma spawnNewTetromino_board (s : GameState) (d : TetroType) :
    (spawnNewTetromino s d).1.board = s.board := by
  unfold spawnNewTetromino
  dsimp only
  split_ifs <;> rfl

lemma processLineClearing_WF (s : GameState) (h : boardWF s.board) :
    boardWF (processLineClearing s).board := by
  unfold processLineClearing
  dsimp only
  split_ifs with hfl
  · rw [addScore_board]
    exact clear_drop_WF s.board h
  · exact h

lemma fixTetrominoToBoard_WF (s : GameState) (d : TetroType) (h : boardWF s.board) :
    boardWF (fixTetrominoToBoard s d).board := by
  unfold fixTetrominoToBoard
  cases s.currentTetromino with
  | none => exact h
  | some t =>
    dsimp only
    rw [spawnNewTetromino_board]
    exact processLineClearing_WF _ (stampShape_WF _ _ _ _ _
      (getTetrominoColorValue_range t.type) h)

lemma dropCurrentTetromino_WF (s : GameState) (d : TetroType) (h : boardWF s.board) :
    boardWF (dropCurrentTetromino s d).board := by
  unfold dropCurrentTetromino
  cases hc : s.currentTetromino with
  | none => exact h
  | some t =>
    dsimp only
    split_ifs with hcol
    · exact h
    · exact fixTetrominoToBoard_WF s d h

lemma validateAndFixGameState_board (s : GameState) :
    (validateAndFixGameState s).board = s.board := by
  simp only [validateAndFixGameState]
  split_ifs <;> rfl

/-- The empty board is well formed. -/
lemma initial_board_WF : boardWF createEmptyBoard := by
  constructor
  · rfl
  · intro row hrow
    rw [List.eq_of_mem_replicate hrow]
    refine ⟨List.length_replicate _ _, ?_⟩
    intro v hv
    rw [List.eq_of_mem_replicate hv]
    exact ⟨le_refl 0, by norm_num⟩

lemma update_WF (s : GameState) (t : Int) (d : TetroType) (h : boardWF s.board) :
    boardWF (update s t d).board := by
  unfold update
  have hv : (validateAndFixGameState s).board = s.board := validateAndFixGameState_board s
  have hsb : (shouldDropTetromino (validateAndFixGameState s) t).1.board = s.board := by
    unfold shouldDropTetromino
    split_ifs <;> rw [hv]
  dsimp only
  by_cases h1 : ((validateAndFixGameState s).paused ||
      (validateAndFixGameState s).gameOver) = true
  · rw [if_pos h1, hv]
    exact h
  · rw [if_neg h1]
    split
    · rw [spawnNewTetromino_board, hv]
      exact h
    · split_ifs with h2
      · apply dropCurrentTetromino_WF
        rw [hsb]
        exact h
      · rw [hsb]
        exact h

/-- C8: every engine operation preserves the board invariant (20 rows of
10 columns, all cell values in `[0, 7]`); `fixTetrominoToBoard` writes
only colour identifiers in `[1, 7]` into in-bounds cells, and the
clear/compact pass only writes zeros or copies rows. -/
theorem board_invariant_spec (s : GameState) (t : Int) (d : TetroType)
    (bo : Bool) (p n : Option Int) (ty : TetroType)
    (h : boardWF s.board) :
    boardWF (update s t d).board ∧
    boardWF (spawnNewTetromino s d).1.board ∧
    boardWF (togglePause s).1.board ∧
    boardWF (setGameOver s bo).board ∧
    boardWF (reset s).board ∧
    boardWF (addScore s p n).board ∧
    boardWF (shouldDropTetromino s t).1.board ∧
    boardWF (render s).1.board ∧
    boardWF (fixTetrominoToBoard s d).board ∧
    boardWF (dropCurrentTetromino s d).board ∧
    boardWF (processLineClearing s).board ∧
    boardWF (clearLines s.board (checkFullLines s.board)) ∧
    boardWF (dropLinesDown (clearLines s.board (checkFullLines s.board))
      (checkFullLines s.board)) ∧
    (1 ≤ getTetrominoColorValue ty ∧ getTetrominoColorValue ty ≤ 7) := by
  refine ⟨update_WF s t d h, ?_, h, h, initial_board_WF, ?_, ?_, ?_,
    fixTetrominoToBoard_WF s d h, dropCurrentTetromino_WF s d h,
    processLineClearing_WF s h, clearLines_WF _ s.board h, clear_drop_WF s.board h,
    getTetrominoColorValue_range ty⟩
  · rw [spawnNewTetromino_board]; exact h
  · rw [addScore_board]; exact h
  · unfold shouldDropTetromino
    split_ifs <;> exact h
  · have hr : (render s).1 = s := by
      unfold render
      by_cases hp : s.paused <;> simp [hp]
    rw [hr]
    exact h

/-- Witness for C8 at the fresh game state. -/
theorem board_invariant_spec_witness :
    boardWF (update initializeGameState 0 TetroType.I).board ∧
    boardWF (reset initializeGameState).board :=
  have h := board_invariant_spec initializeGameState 0 TetroType.I false
    (some 0) (some 0) TetroType.I initial_board_WF
  ⟨h.1, h.2.2.2.2.1⟩

end Tetris
